import Mathlib

/-!
Verification development for the M65832 LLVM backend: a shallow embedding of
the lowering layer (M65832ISelLowering.cpp), the post-register-allocation
pseudo expansion engine (M65832InstrInfo.cpp), the frame/ABI lowering
(M65832FrameLowering.cpp, M65832RegisterInfo.cpp) and the instruction
encoder (MCTargetDesc/M65832MCCodeEmitter.cpp), together with proofs of the
behavioural properties stated in the backend's specification.

Machine integers are modelled as `Nat` with explicit `% 2 ^ 32` (or
`% 2 ^ 16`, `% 2 ^ 64`) where overflow matters; signed views are `Int`.
-/

namespace M65832

/-- The ISD condition codes that reach the M65832 lowering code
(the ten integer relations plus the ordered / unordered floating-point
relations matched by the `InvertCC` lambdas in M65832InstrInfo.cpp). -/
inductive CondCode where
  | SETEQ | SETNE | SETLT | SETGE | SETGT | SETLE
  | SETULT | SETUGE | SETUGT | SETULE
  | SETOEQ | SETONE | SETOLT | SETOGE | SETOGT | SETOLE | SETUNE
  deriving DecidableEq, Repr

/-- The ten integer comparison relations (the ones integer BR_CC /
SELECT_CC / SETCC lowering can receive). -/
def CondCode.isInteger : CondCode → Bool
  | .SETEQ | .SETNE | .SETLT | .SETGE | .SETGT | .SETLE
  | .SETULT | .SETUGE | .SETUGT | .SETULE => true
  | _ => false

/-- Signed view of a 32-bit value stored as a `Nat`. -/
def sint32 (x : Nat) : Int :=
  if x < 2 ^ 31 then (x : Int) else (x : Int) - 2 ^ 32

/-- Truth value of an integer condition code on two 32-bit operands
(signed relations compare the signed views, unsigned relations compare
the raw `Nat`s).  Floating-point codes do not apply and evaluate to
`false`. -/
def evalIntCC (cc : CondCode) (a b : Nat) : Bool :=
  match cc with
  | .SETEQ  => a == b
  | .SETNE  => a != b
  | .SETLT  => decide (sint32 a < sint32 b)
  | .SETGE  => decide (sint32 b ≤ sint32 a)
  | .SETGT  => decide (sint32 b < sint32 a)
  | .SETLE  => decide (sint32 a ≤ sint32 b)
  | .SETULT => a < b
  | .SETUGE => b ≤ a
  | .SETUGT => b < a
  | .SETULE => a ≤ b
  | _ => false

/-- Condition canonicalization from `LowerBR_CC`, `LowerSELECT_CC` and
`LowerSETCC` in M65832ISelLowering.cpp (the three functions contain the
same four-case switch): SETGT/SETLE/SETUGT/SETULE swap the operands and
become SETLT/SETGE/SETULT/SETUGE; every other code passes through with
the operands unswapped. -/
def canonicalizeIntCondCode (cc : CondCode) (lhs rhs : α) :
    CondCode × α × α :=
  match cc with
  | .SETGT  => (.SETLT,  rhs, lhs)
  | .SETLE  => (.SETGE,  rhs, lhs)
  | .SETUGT => (.SETULT, rhs, lhs)
  | .SETULE => (.SETUGE, rhs, lhs)
  | _ => (cc, lhs, rhs)

/-- The relations the hardware can branch on with a single flag test,
per the branch-opcode switches in M65832InstrInfo.cpp: BEQ (SETEQ),
BNE (SETNE), BMI (SETLT), BPL (SETGE), BCC (SETULT), BCS (SETUGE). -/
def CondCode.isNativelyBranchable : CondCode → Bool
  | .SETEQ | .SETNE | .SETLT | .SETGE | .SETULT | .SETUGE => true
  | _ => false

/-- From `LowerCall` in M65832ISelLowering.cpp: the reserved call-frame
size is the stack-argument byte count, but never less than the 4 bytes
the hardware JSR pushes as a return address. -/
def callFrameSize (stackSize : Nat) : Nat :=
  max stackSize 4

/-- The pair of stack-adjustment amounts `LowerCall` hands to
CALLSEQ_START and CALLSEQ_END: both receive the same `CallFrameSize`. -/
structure LoweredCallSeq where
  startAmt : Nat
  endAmt : Nat
  deriving DecidableEq, Repr

/-- From `LowerCall`: CALLSEQ_START and CALLSEQ_END are both built with
`CallFrameSize = max(StackSize, 4)`. -/
def lowerCallSeq (stackSize : Nat) : LoweredCallSeq :=
  { startAmt := callFrameSize stackSize, endAmt := callFrameSize stackSize }

/-- The M65832 register universe: 64 general slots R0–R63, the
architectural registers, and 16 floating-point registers. -/
inductive Reg where
  | R (n : Fin 64)
  | A | X | Y | SP | T | SR | D | B | VBR
  | F (n : Fin 16)
  deriving DecidableEq, Repr

/-- `M65832InstrInfo::getDPOffset`: a general slot's fixed direct-page
byte offset is its index times four.  (Only general slots have one; the
backend never asks for the offset of an architectural register.) -/
def getDPOffset (r : Reg) : Nat :=
  match r with
  | .R n => n.val * 4
  | _ => 0

/-- `M65832RegisterInfo::getReservedRegs` from M65832RegisterInfo.cpp.
The reserved set is the same for every machine function: SP, the base
registers D/B/VBR, the temp register T, the status register SR, the
kernel-reserved range R24–R29, R31, and the future-reserved range
R56–R63.  The function receives the machine function but never consults
it, which the unused `Bool` argument (whether the function needs a frame
base) makes explicit. -/
def getReservedRegs (_needsFrameBase : Bool) (r : Reg) : Bool :=
  match r with
  | .SP | .D | .B | .VBR | .T | .SR => true
  | .R n =>
      n.val == 24 || n.val == 25 || n.val == 26 || n.val == 27 ||
      n.val == 28 || n.val == 29 || n.val == 31 ||
      n.val == 56 || n.val == 57 || n.val == 58 || n.val == 59 ||
      n.val == 60 || n.val == 61 || n.val == 62 || n.val == 63
  | _ => false

/-- `M65832FrameLowering::hasFPImpl`: a function requires a frame base
iff it has variable-sized stack objects, its frame address is taken, or
frame-pointer elimination is disabled. -/
def hasFPImpl (hasVarSizedObjects frameAddressTaken disableFPElim : Bool) :
    Bool :=
  hasVarSizedObjects || frameAddressTaken || disableFPElim

/-- From `emitImm16` in M65832MCCodeEmitter.cpp: a PC-relative branch
immediate arrives as `*+N` (N bytes from the instruction start) and is
encoded as the 16-bit value `N - 3`. -/
def encodePCRelImm16 (N : Int) : Nat :=
  ((N - 3).emod (2 ^ 16)).toNat

/-- Signed view of a 16-bit encoded value. -/
def sint16 (x : Nat) : Int :=
  if x < 2 ^ 15 then (x : Int) else (x : Int) - 2 ^ 16

/-- Hardware interpretation of a 16-bit PC-relative branch: the target
is the address after the full 3-byte instruction plus the sign-extended
encoded offset. -/
def branchTarget16 (addr : Nat) (enc : Nat) : Int :=
  (addr : Int) + 3 + sint16 enc

/-- Byte size of a 16-bit PC-relative branch instruction (opcode plus
two offset bytes). -/
def branchInstrSize : Nat := 3

/-- Byte offset of the PC-relative fixup inside the branch instruction
(`MCFixup::create(Offset = 1, ...)` for the `Size == 3` case). -/
def pcrelFixupOffsetInInstr : Nat := 1

/-- The constant `emitImm16` adds to a symbolic PC-relative expression
before creating the fixup (`MCConstantExpr::create(-2, Ctx)`). -/
def pcrelFixupAddend : Int := -2

/-- A branch target operand: either a machine basic block (`.addMBB`) or
a byte displacement `*+n` relative to the branch's own start
(`.addImm(n)`, as used inside the select expansions). -/
inductive BTarget where
  | block (id : Nat)
  | rel (n : Int)
  deriving DecidableEq, Repr

/-- The concrete machine instructions the modelled expansions emit. -/
inductive MInst where
  | LDA_DP (dp : Nat)
  | STA_DP (dp : Nat)
  | PHA
  | PLA
  | CLC
  | SEC
  | ADC_DP (dp : Nat)
  | ADC_IMM (imm : Int)
  | SBC_DP (dp : Nat)
  | SBC_IMM (imm : Int)
  | AND_DP (dp : Nat)
  | AND_IMM (imm : Int)
  | ORA_DP (dp : Nat)
  | ORA_IMM (imm : Int)
  | EOR_DP (dp : Nat)
  | EOR_IMM (imm : Int)
  | CMPR_DP (lhs rhs : Reg)
  | CMPR_IMM (lhs : Reg) (imm : Int)
  | MOVR_DP (dst src : Reg)
  | BEQ (t : BTarget)
  | BNE (t : BTarget)
  | BMI (t : BTarget)
  | BPL (t : BTarget)
  | BCC (t : BTarget)
  | BCS (t : BTarget)
  | BRA (t : BTarget)
  deriving DecidableEq, Repr

/-- Branch instructions (conditional or unconditional). -/
def MInst.isBranch : MInst → Bool
  | .BEQ _ | .BNE _ | .BMI _ | .BPL _ | .BCC _ | .BCS _ | .BRA _ => true
  | _ => false

/-- Conditional branch instructions (BRA is unconditional). -/
def MInst.isCondBranch : MInst → Bool
  | .BEQ _ | .BNE _ | .BMI _ | .BPL _ | .BCC _ | .BCS _ => true
  | _ => false

/-- Register-to-register move instructions. -/
def MInst.isRegMove : MInst → Bool
  | .MOVR_DP _ _ => true
  | _ => false

/-- The target operand of a branch. -/
def MInst.targetOf : MInst → Option BTarget
  | .BEQ t | .BNE t | .BMI t | .BPL t | .BCC t | .BCS t | .BRA t => some t
  | _ => none

/-- The hardware status flags a compare leaves behind. -/
structure Flags where
  z : Bool
  n : Bool
  c : Bool
  deriving DecidableEq, Repr

/-- Modelled from the spec: the hardware's compare against the shared
status register (the CPU itself is not in the repository sources).  Per
the natively branchable relations the spec lists and the branch-opcode
comments in M65832InstrInfo.cpp (BEQ/BNE test Z, BMI/BPL test the sign
outcome of a signed compare, BCC/BCS test the carry outcome of an
unsigned compare): comparing 32-bit values `a` and `b` sets Z iff they
are equal, N iff `a` is signed-less-than `b`, and C iff `a` is
unsigned-at-least `b`. -/
def cmpFlags (a b : Nat) : Flags :=
  { z := a == b, n := decide (sint32 a < sint32 b), c := b ≤ a }

/-- Whether a branch instruction is taken under the given flags
(non-branch instructions are never taken). -/
def branchCond : MInst → Flags → Bool
  | .BEQ _, f => f.z
  | .BNE _, f => !f.z
  | .BMI _, f => f.n
  | .BPL _, f => !f.n
  | .BCC _, f => !f.c
  | .BCS _, f => f.c
  | .BRA _, _ => true
  | _, _ => false

/-- The branch-opcode switch shared verbatim by the
`BR_CC_CMP_PSEUDO`, `BR_CC_CMP_IMM_PSEUDO`, `BR_CC_PSEUDO` and
`CMP_BR_CC` cases of `M65832InstrInfo::expandPostRAPseudo`: the list of
branch instructions emitted after the compare, given the condition code,
the branch destination block and the fall-through block
(`MBB.getNextNode()`, `none` when the block is last). -/
def brccBranches (cc : CondCode) (target : Nat) (next : Option Nat) :
    List MInst :=
  match cc with
  | .SETEQ => [.BEQ (.block target)]
  | .SETNE => [.BNE (.block target)]
  | .SETLT => [.BMI (.block target)]
  | .SETGE => [.BPL (.block target)]
  | .SETGT =>
      match next with
      | some n => [.BEQ (.block n), .BMI (.block n), .BRA (.block target)]
      | none => [.BPL (.block target)]
  | .SETLE =>
      match next with
      | some _ => [.BEQ (.block target), .BMI (.block target)]
      | none => [.BMI (.block target)]
  | .SETULT => [.BCC (.block target)]
  | .SETUGE => [.BCS (.block target)]
  | .SETUGT =>
      match next with
      | some n => [.BEQ (.block n), .BCS (.block target)]
      | none => [.BCS (.block target)]
  | .SETULE =>
      match next with
      | some _ => [.BEQ (.block target), .BCC (.block target)]
      | none => [.BCC (.block target)]
  | _ => [.BNE (.block target)]

/-- Expansion of the fused compare-and-branch pseudo `CMP_BR_CC`
(`expandPostRAPseudo`): the register-register compare immediately
followed by its dependent branches. -/
def expandCMP_BR_CC (lhs rhs : Reg) (cc : CondCode) (target : Nat)
    (next : Option Nat) : List MInst :=
  MInst.CMPR_DP lhs rhs :: brccBranches cc target next

/-- Expansion of `BR_CC_CMP_PSEUDO` (`expandPostRAPseudo`): identical in
structure to `CMP_BR_CC`. -/
def expandBR_CC_CMP_PSEUDO (lhs rhs : Reg) (cc : CondCode) (target : Nat)
    (next : Option Nat) : List MInst :=
  MInst.CMPR_DP lhs rhs :: brccBranches cc target next

/-- Expansion of `BR_CC_CMP_IMM_PSEUDO` (`expandPostRAPseudo`): the
register-immediate compare immediately followed by its dependent
branches. -/
def expandBR_CC_CMP_IMM_PSEUDO (lhs : Reg) (imm : Int) (cc : CondCode)
    (target : Nat) (next : Option Nat) : List MInst :=
  MInst.CMPR_IMM lhs imm :: brccBranches cc target next

/-- Expansion of `BR_CC_PSEUDO` (`expandPostRAPseudo`): the flags were
set by an earlier compare, so only the branch sequence is emitted. -/
def expandBR_CC_PSEUDO (cc : CondCode) (target : Nat) (next : Option Nat) :
    List MInst :=
  brccBranches cc target next

/-- Modelled from the spec: the TableGen instruction definitions (not
present under the source tree) mark the fused compare-and-branch
pseudo-ops as block terminators, so register-allocator copies at
control-flow join points are placed before them; the comment at the
`CMP_BR_CC` case of `expandPostRAPseudo` records the same fact. -/
def cmpBrCCIsTerminator : Bool := true

/-- The first taken branch in a straight-line branch sequence, under the
given flags. -/
def firstTakenBranch (fl : Flags) : List MInst → Option BTarget
  | [] => none
  | i :: rest =>
      if branchCond i fl then i.targetOf else firstTakenBranch fl rest

/-- Where control goes after a branch sequence whose targets are blocks:
the first taken branch's block, or the fall-through block if none is
taken. -/
def branchResolve (fl : Flags) (l : List MInst) (fallthrough : Nat) : Nat :=
  match firstTakenBranch fl l with
  | some (.block b) => b
  | _ => fallthrough

/-- The shape claimed for composite-condition expansions: exactly two
chained conditional branches, both targeting the same destination
block. -/
def twoChainedCondBranchesTo (l : List MInst) (target : Nat) : Bool :=
  match l with
  | [b1, b2] =>
      b1.isCondBranch && b2.isCondBranch &&
      b1.targetOf == some (.block target) &&
      b2.targetOf == some (.block target)
  | _ => false

/-- `M65832FrameLowering::determineCalleeSaves`: after the generic
computation of the save set, R29 is removed whenever the function uses a
frame pointer (`SavedRegs.reset(M65832::R29)`). -/
def determineCalleeSaves (savedRegs : List Reg) (hasFP : Bool) :
    List Reg :=
  if hasFP then savedRegs.filter (fun r => r ≠ Reg.R 29) else savedRegs

/-- `M65832FrameLowering::spillCalleeSavedRegisters`: each callee-saved
register is spilled with `LDA dp; PHA`, except that R29 is skipped when
the function uses a frame pointer. -/
def spillCalleeSavedRegisters (csi : List Reg) (hasFP : Bool) :
    List MInst :=
  csi.flatMap fun r =>
    if r == Reg.R 29 && hasFP then []
    else [MInst.LDA_DP (getDPOffset r), MInst.PHA]

/-- `M65832FrameLowering::restoreCalleeSavedRegisters`: registers are
restored in reverse order with `PLA; STA dp`, again skipping R29 when
the function uses a frame pointer. -/
def restoreCalleeSavedRegisters (csi : List Reg) (hasFP : Bool) :
    List MInst :=
  csi.reverse.flatMap fun r =>
    if r == Reg.R 29 && hasFP then []
    else [MInst.PLA, MInst.STA_DP (getDPOffset r)]

/-- The register-register ALU pseudo-operations of claim C8. -/
inductive ALUPseudo where
  | ADD_GPR | SUB_GPR | AND_GPR | ORA_GPR | EOR_GPR
  deriving DecidableEq, Repr

/-- The register-immediate ALU pseudo-operations of claim C8. -/
inductive ALUImmPseudo where
  | ADDI_GPR | SUBI_GPR | ANDI_GPR | ORI_GPR | XORI_GPR
  deriving DecidableEq, Repr

/-- The 32-bit value of an immediate operand. -/
def imm32 (i : Int) : Nat :=
  (i.emod (2 ^ 32)).toNat

/-- The register-register ALU cases of
`M65832InstrInfo::expandPostRAPseudo` (ADD_GPR, SUB_GPR, AND_GPR,
ORA_GPR, EOR_GPR): load src1's direct-page slot into the accumulator,
apply the operation against src2's slot (with the carry set up first for
add/subtract), store the accumulator to the destination's slot. -/
def expandALU_GPR (p : ALUPseudo) (dst src1 src2 : Reg) : List MInst :=
  let src1DP := getDPOffset src1
  let src2DP := getDPOffset src2
  let dstDP := getDPOffset dst
  match p with
  | .ADD_GPR => [.LDA_DP src1DP, .CLC, .ADC_DP src2DP, .STA_DP dstDP]
  | .SUB_GPR => [.LDA_DP src1DP, .SEC, .SBC_DP src2DP, .STA_DP dstDP]
  | .AND_GPR => [.LDA_DP src1DP, .AND_DP src2DP, .STA_DP dstDP]
  | .ORA_GPR => [.LDA_DP src1DP, .ORA_DP src2DP, .STA_DP dstDP]
  | .EOR_GPR => [.LDA_DP src1DP, .EOR_DP src2DP, .STA_DP dstDP]

/-- The register-immediate ALU cases of
`M65832InstrInfo::expandPostRAPseudo` (ADDI_GPR, SUBI_GPR, ANDI_GPR,
ORI_GPR, XORI_GPR). -/
def expandALUImm_GPR (p : ALUImmPseudo) (dst src : Reg) (imm : Int) :
    List MInst :=
  let srcDP := getDPOffset src
  let dstDP := getDPOffset dst
  match p with
  | .ADDI_GPR => [.LDA_DP srcDP, .CLC, .ADC_IMM imm, .STA_DP dstDP]
  | .SUBI_GPR => [.LDA_DP srcDP, .SEC, .SBC_IMM imm, .STA_DP dstDP]
  | .ANDI_GPR => [.LDA_DP srcDP, .AND_IMM imm, .STA_DP dstDP]
  | .ORI_GPR => [.LDA_DP srcDP, .ORA_IMM imm, .STA_DP dstDP]
  | .XORI_GPR => [.LDA_DP srcDP, .EOR_IMM imm, .STA_DP dstDP]

/-- Machine state for straight-line accumulator code: the direct page
(32-bit slots addressed by byte offset), the accumulator and the carry
flag. -/
structure AluState where
  dp : Nat → Nat
  acc : Nat
  carry : Bool

/-- Add-with-carry result (32-bit wrap). -/
def adcVal (a m : Nat) (c : Bool) : Nat :=
  (a + m + (if c then 1 else 0)) % 2 ^ 32

/-- Add-with-carry carry-out. -/
def adcCarry (a m : Nat) (c : Bool) : Bool :=
  decide (2 ^ 32 ≤ a + m + (if c then 1 else 0))

/-- Subtract-with-borrow result: `A - M - (1 - C)` computed as
`A + (2^32 - 1 - M) + C` with 32-bit wrap (`M < 2^32`). -/
def sbcVal (a m : Nat) (c : Bool) : Nat :=
  (a + (2 ^ 32 - 1 - m) + (if c then 1 else 0)) % 2 ^ 32

/-- Subtract-with-borrow carry-out (set iff no borrow). -/
def sbcCarry (a m : Nat) (c : Bool) : Bool :=
  decide (2 ^ 32 ≤ a + (2 ^ 32 - 1 - m) + (if c then 1 else 0))

/-- Modelled from the spec: hardware semantics of the straight-line
accumulator instructions the ALU expansions emit (the CPU itself is not
in the repository sources; the direct page holds the general slots and
all datapaths are 32 bits wide). -/
def aluStep (st : AluState) : MInst → AluState
  | .LDA_DP d => { st with acc := st.dp d % 2 ^ 32 }
  | .STA_DP d => { st with dp := fun x => if x = d then st.acc else st.dp x }
  | .CLC => { st with carry := false }
  | .SEC => { st with carry := true }
  | .ADC_DP d =>
      { st with acc := adcVal st.acc (st.dp d % 2 ^ 32) st.carry,
                carry := adcCarry st.acc (st.dp d % 2 ^ 32) st.carry }
  | .ADC_IMM i =>
      { st with acc := adcVal st.acc (imm32 i) st.carry,
                carry := adcCarry st.acc (imm32 i) st.carry }
  | .SBC_DP d =>
      { st with acc := sbcVal st.acc (st.dp d % 2 ^ 32) st.carry,
                carry := sbcCarry st.acc (st.dp d % 2 ^ 32) st.carry }
  | .SBC_IMM i =>
      { st with acc := sbcVal st.acc (imm32 i) st.carry,
                carry := sbcCarry st.acc (imm32 i) st.carry }
  | .AND_DP d => { st with acc := st.acc &&& (st.dp d % 2 ^ 32) }
  | .AND_IMM i => { st with acc := st.acc &&& imm32 i }
  | .ORA_DP d => { st with acc := st.acc ||| (st.dp d % 2 ^ 32) }
  | .ORA_IMM i => { st with acc := st.acc ||| imm32 i }
  | .EOR_DP d => { st with acc := st.acc ^^^ (st.dp d % 2 ^ 32) }
  | .EOR_IMM i => { st with acc := st.acc ^^^ imm32 i }
  | _ => st

/-- Run a straight-line instruction sequence. -/
def runAlu (prog : List MInst) (st : AluState) : AluState :=
  prog.foldl aluStep st

/-- Reference semantics of the abstract register-register operation, per
the spec's words (`dst = src1 op src2` on 32-bit values). -/
def ALUPseudo.refSem : ALUPseudo → Nat → Nat → Nat
  | .ADD_GPR, a, b => (a + b) % 2 ^ 32
  | .SUB_GPR, a, b => (a + (2 ^ 32 - b)) % 2 ^ 32
  | .AND_GPR, a, b => a &&& b
  | .ORA_GPR, a, b => a ||| b
  | .EOR_GPR, a, b => a ^^^ b

/-- Reference semantics of the abstract register-immediate operation. -/
def ALUImmPseudo.refSem : ALUImmPseudo → Nat → Nat → Nat
  | .ADDI_GPR, a, b => (a + b) % 2 ^ 32
  | .SUBI_GPR, a, b => (a + (2 ^ 32 - b)) % 2 ^ 32
  | .ANDI_GPR, a, b => a &&& b
  | .ORI_GPR, a, b => a ||| b
  | .XORI_GPR, a, b => a ^^^ b

/-- The condition-inversion lambda `InvertCC` from the
`SELECT_CC_PSEUDO` case of `expandPostRAPseudo`. -/
def invertCC : CondCode → CondCode
  | .SETEQ => .SETNE
  | .SETNE => .SETEQ
  | .SETLT => .SETGE
  | .SETGE => .SETLT
  | .SETGT => .SETLE
  | .SETLE => .SETGT
  | .SETULT => .SETUGE
  | .SETUGE => .SETULT
  | .SETUGT => .SETULE
  | .SETULE => .SETUGT
  | .SETOEQ => .SETONE
  | .SETONE => .SETOEQ
  | .SETOLT => .SETOGE
  | .SETOGE => .SETOLT
  | .SETOGT => .SETOLE
  | .SETOLE => .SETOGT
  | .SETUNE => .SETOEQ

/-- The skip-branch sequence of the `SELECT_CC_PSEUDO` expansion, one
case per effective condition code: a single branch (displacement `*+8`)
skips the 5-byte `MOVR` for the single-flag conditions, and the
composite conditions use the dual-branch sequences with the literal
byte displacements from the source. -/
def selectSkipBranches (eff : CondCode) : List MInst :=
  match eff with
  | .SETEQ | .SETOEQ => [.BNE (.rel 8)]
  | .SETNE | .SETONE | .SETUNE => [.BEQ (.rel 8)]
  | .SETLT | .SETOLT => [.BPL (.rel 8)]
  | .SETGE | .SETOGE => [.BMI (.rel 8)]
  | .SETGT | .SETOGT => [.BEQ (.rel 11), .BMI (.rel 8)]
  | .SETLE | .SETOLE => [.BEQ (.rel 9), .BMI (.rel 6), .BRA (.rel 8)]
  | .SETULT => [.BCS (.rel 8)]
  | .SETUGE => [.BCC (.rel 8)]
  | .SETUGT => [.BEQ (.rel 11), .BCC (.rel 8)]
  | .SETULE => [.BEQ (.rel 9), .BCC (.rel 6), .BRA (.rel 8)]

/-- The `SELECT_CC_PSEUDO` case of `M65832InstrInfo::expandPostRAPseudo`:
compare, handle destination/source aliasing (skip the first copy or
invert the branch logic), then the skip branches and the conditional
second copy. -/
def expandSELECT_CC_PSEUDO (dst lhs rhs tv fv : Reg) (cc : CondCode) :
    List MInst :=
  let cmp : MInst := .CMPR_DP lhs rhs
  if tv == dst && fv == dst then [cmp]
  else
    let invertLogic := tv == dst && !(tv == fv)
    let firstCopyReg := if invertLogic then tv else fv
    let secondCopyReg := if invertLogic then fv else tv
    let effectiveCC := if invertLogic then invertCC cc else cc
    let firstCopy :=
      if firstCopyReg == dst then [] else [MInst.MOVR_DP dst firstCopyReg]
    cmp :: (firstCopy ++ selectSkipBranches effectiveCC ++
      [MInst.MOVR_DP dst secondCopyReg])

/-- Byte sizes used by the select expansion's displacement arithmetic
(from the comments in the source): a branch is 3 bytes and `MOVR` is
5 bytes.  Displacements are relative to each branch's own start, so the
size assigned to the other instructions never enters the arithmetic; the
compare also gets its real size of 3 bytes. -/
def minstSize : MInst → Nat
  | .MOVR_DP _ _ => 5
  | _ => 3

/-- Machine state for the select expansion: general registers and the
status flags. -/
structure SelState where
  regs : Reg → Nat
  flags : Flags

/-- Modelled from the spec: effect of the select expansion's non-branch
instructions (register compare sets the flags, register move copies a
value). -/
def selStep (st : SelState) : MInst → SelState
  | .CMPR_DP l r => { st with flags := cmpFlags (st.regs l) (st.regs r) }
  | .MOVR_DP d s =>
      { st with regs := fun r => if r = d then st.regs s else st.regs r }
  | _ => st

/-- Drop instructions until the byte position reaches `tgt`, returning
the remaining program and its start position. -/
def dropToPos : List MInst → Int → Int → List MInst × Int
  | [], pos, _ => ([], pos)
  | i :: rest, pos, tgt =>
      if tgt ≤ pos then (i :: rest, pos)
      else dropToPos rest (pos + minstSize i) tgt

/-- Fuel-bounded executor for the select expansion: instructions run in
byte order; a taken branch with displacement `*+n` continues at byte
position `pos + n`.  (All displacements in the expansion are forward.) -/
def execSelN : Nat → List MInst → Int → SelState → SelState
  | 0, _, _, st => st
  | _ + 1, [], _, st => st
  | fuel + 1, i :: rest, pos, st =>
      if branchCond i st.flags then
        match i.targetOf with
        | some (.rel off) =>
            let next := dropToPos rest (pos + minstSize i) (pos + off)
            execSelN fuel next.1 next.2 st
        | _ => st
      else execSelN fuel rest (pos + minstSize i) (selStep st i)

/-- Run a select expansion from byte position 0. -/
def execSelect (prog : List MInst) (st : SelState) : SelState :=
  execSelN (prog.length + 1) prog 0 st

/-- Modelled hardware semantics of the 32-bit barrel shifter (the CPU is
not in the repository sources): the shift amount is taken modulo the
32-bit word width; left shifts fill with zeros and wrap to 32 bits. -/
def shl32 (x s : Nat) : Nat :=
  (x <<< (s % 32)) % 2 ^ 32

/-- Logical right shift on the 32-bit datapath. -/
def srl32 (x s : Nat) : Nat :=
  (x % 2 ^ 32) >>> (s % 32)

/-- The sign-fill of an arithmetic right shift of a `w`-bit value by
`s`: the sign bit (the value's top bit) replicated across the top `s`
bit positions. -/
def ashrFill (w s x : Nat) : Nat :=
  (x >>> (w - 1)) * ((2 ^ s - 1) <<< (w - s))

/-- Arithmetic right shift on the 32-bit datapath: logical shift plus
sign fill. -/
def sra32 (x s : Nat) : Nat :=
  ((x % 2 ^ 32) >>> (s % 32)) ||| ashrFill 32 (s % 32) (x % 2 ^ 32)

/-- 32-bit wrapping addition (`ISD::ADD` on i32). -/
def add32 (a b : Nat) : Nat :=
  (a + b) % 2 ^ 32

/-- 32-bit wrapping subtraction (`ISD::SUB` on i32). -/
def sub32 (a b : Nat) : Nat :=
  (a % 2 ^ 32 + (2 ^ 32 - b % 2 ^ 32)) % 2 ^ 32

/-- `M65832TargetLowering::LowerShiftLeftParts`: the 64-bit left shift
decomposed into 32-bit operations exactly as the source builds the DAG
(`ShamtMinus32 = Shamt + (-32)`, `ThirtyOneMinusShamt = 31 - Shamt`,
two-step right shift of the low word, a select on
`ShamtMinus32 <s 0`). -/
def lowerShiftLeftParts (lo hi shamt : Nat) : Nat × Nat :=
  let shamtMinus32 := add32 shamt (imm32 (-32))
  let thirtyOneMinusShamt := sub32 31 shamt
  let loTrue := shl32 lo shamt
  let shiftRight1Lo := srl32 lo 1
  let shiftRightLo := srl32 shiftRight1Lo thirtyOneMinusShamt
  let shiftLeftHi := shl32 hi shamt
  let hiTrue := shiftLeftHi ||| shiftRightLo
  let hiFalse := shl32 lo shamtMinus32
  let cc := decide (sint32 shamtMinus32 < 0)
  (if cc then loTrue else 0, if cc then hiTrue else hiFalse)

/-- `M65832TargetLowering::LowerShiftRightParts`: the 64-bit right shift
(logical when `isSRA = false`, arithmetic when `isSRA = true`)
decomposed into 32-bit operations exactly as the source builds the DAG
(two-step left shift of the high word, a select on
`ShamtMinus32 <s 0`). -/
def lowerShiftRightParts (lo hi shamt : Nat) (isSRA : Bool) : Nat × Nat :=
  let shamtMinus32 := add32 shamt (imm32 (-32))
  let thirtyOneMinusShamt := sub32 31 shamt
  let shiftRightLo := srl32 lo shamt
  let shiftLeftHi1 := shl32 hi 1
  let shiftLeftHi := shl32 shiftLeftHi1 thirtyOneMinusShamt
  let loTrue := shiftRightLo ||| shiftLeftHi
  let hiTrue := if isSRA then sra32 hi shamt else srl32 hi shamt
  let loFalse := if isSRA then sra32 hi shamtMinus32 else srl32 hi shamtMinus32
  let hiFalse := if isSRA then sra32 hi 31 else 0
  let cc := decide (sint32 shamtMinus32 < 0)
  (if cc then loTrue else loFalse, if cc then hiTrue else hiFalse)

/-- The 64-bit value formed by a (low, high) word pair. -/
def ref64 (lo hi : Nat) : Nat :=
  hi * 2 ^ 32 + lo

/-- Reference 64-bit left shift, per the spec's words: shift filling
with zeros, then split into words. -/
def refShl64 (lo hi s : Nat) : Nat × Nat :=
  let r := (ref64 lo hi <<< s) % 2 ^ 64
  (r % 2 ^ 32, r >>> 32)

/-- Reference 64-bit logical right shift. -/
def refLshr64 (lo hi s : Nat) : Nat × Nat :=
  let r := (ref64 lo hi % 2 ^ 64) >>> s
  (r % 2 ^ 32, r >>> 32)

/-- Reference 64-bit arithmetic right shift: logical shift plus sign
fill of the top `s` bits. -/
def refAshr64 (lo hi s : Nat) : Nat × Nat :=
  let v := ref64 lo hi % 2 ^ 64
  let r := (v >>> s) ||| ashrFill 64 s v
  (r % 2 ^ 32, r >>> 32)

/-- A concrete register file used by the witness theorems. -/
def sampleSelRegs : Reg → Nat
  | .R n => n.val
  | _ => 0

/-- A concrete machine state for the select-expansion witness. -/
def sampleSelState : SelState :=
  { regs := sampleSelRegs, flags := { z := false, n := false, c := false } }

/-- A concrete direct page used by the ALU-expansion witness. -/
def sampleAluDP : Nat → Nat :=
  fun d => if d = 0 then 7 else if d = 4 then 5 else 3

/-- A concrete machine state for the ALU-expansion witness. -/
def sampleAluState : AluState :=
  { dp := sampleAluDP, acc := 0, carry := false }

end M65832

namespace M65832

/-! ### Helper lemmas -/

/-- The signed view is injective on 32-bit values. -/
theorem sint32_injOn (a b : Nat) (ha : a < 2 ^ 32) (hb : b < 2 ^ 32) :
    sint32 a = sint32 b ↔ a = b := by
  unfold sint32
  split <;> split <;> (push_cast; omega)

/-- Only R29 has direct-page offset 116. -/
theorem getDPOffset_eq_29 (r : Reg) (h : getDPOffset r = 116) : r = Reg.R 29 := by
  cases r <;> simp [getDPOffset] at h ⊢
  next n =>
    apply Fin.ext
    show n.val = 29
    omega

/-- 32-bit immediate values are bounded. -/
theorem imm32_lt (i : Int) : imm32 i < 2 ^ 32 := by
  unfold imm32
  have h1 : 0 ≤ i.emod (2 ^ 32) := Int.emod_nonneg _ (by norm_num)
  have h2 : i.emod (2 ^ 32) < 2 ^ 32 := Int.emod_lt_of_pos _ (by norm_num)
  omega

/-- Reduction modulo a power of two distributes over bitwise or. -/
theorem lor_mod_two_pow (x y n : Nat) :
    (x ||| y) % 2 ^ n = x % 2 ^ n ||| y % 2 ^ n := by
  apply Nat.eq_of_testBit_eq
  intro i
  simp [Nat.testBit_mod_two_pow, Nat.testBit_lor, Bool.and_or_distrib_left]

/-- Right shift distributes over bitwise or. -/
theorem lor_shiftRight (x y n : Nat) :
    (x ||| y) >>> n = x >>> n ||| y >>> n := by
  apply Nat.eq_of_testBit_eq
  intro i
  simp [Nat.testBit_shiftRight, Nat.testBit_lor]

/-- Or of a left-shifted value with a value below the shift width is
addition (the bit ranges are disjoint). -/
theorem shiftLeft_lor_add (b a k : Nat) (ha : a < 2 ^ k) :
    (b <<< k) ||| a = b <<< k + a := by
  have hpos : 0 < 2 ^ k := Nat.pos_pow_of_pos k (by norm_num)
  conv_lhs => rw [← Nat.mod_add_div ((b <<< k) ||| a) (2 ^ k)]
  have h1 : ((b <<< k) ||| a) % 2 ^ k = a := by
    rw [lor_mod_two_pow, Nat.shiftLeft_eq, Nat.mul_mod_left, Nat.mod_eq_of_lt ha]
    simp
  have hbd : b * 2 ^ k / 2 ^ k = b := Nat.mul_div_cancel b hpos
  have h2 : ((b <<< k) ||| a) / 2 ^ k = b := by
    rw [← Nat.shiftRight_eq_div_pow, lor_shiftRight, Nat.shiftRight_eq_div_pow,
        Nat.shiftRight_eq_div_pow, Nat.shiftLeft_eq, hbd, Nat.div_eq_of_lt ha]
    simp
  rw [h1, h2, Nat.shiftLeft_eq]
  ring

/-- The sample register file is 32-bit bounded. -/
theorem sampleSelState_wf : ∀ r, sampleSelState.regs r < 2 ^ 32 := by
  intro r
  cases r <;> simp [sampleSelState, sampleSelRegs]
  next n => exact Nat.lt_of_lt_of_le n.isLt (by norm_num)

/-- The sample direct page is 32-bit bounded. -/
theorem sampleAluState_wf : ∀ d, sampleAluState.dp d < 2 ^ 32 := by
  intro d
  simp only [sampleAluState, sampleAluDP]
  split_ifs <;> norm_num

/-- SHL_PARTS matches the reference 64-bit left shift for amounts below
the word width. -/
theorem lowerShl_ref_of_lt (lo hi s : Nat) (hlo : lo < 2 ^ 32) (hhi : hi < 2 ^ 32)
    (hs : s < 32) : lowerShiftLeftParts lo hi s = refShl64 lo hi s := by
  have hm32 : add32 s (imm32 (-32)) = s + (2 ^ 32 - 32) := by
    simp only [add32, show imm32 (-32) = 2 ^ 32 - 32 from rfl]; omega
  have hccb : decide (sint32 (s + (2 ^ 32 - 32)) < 0) = true := by
    rw [← hm32]
    apply decide_eq_true
    rw [hm32]; unfold sint32; split <;> [omega; (push_cast; omega)]
  have h31 : sub32 31 s = 31 - s := by simp only [sub32]; omega
  simp only [lowerShiftLeftParts, refShl64, ref64, shl32, srl32, hm32, h31, hccb, if_true]
  rw [Nat.mod_eq_of_lt hs, Nat.mod_eq_of_lt (show 31 - s < 32 by omega),
      Nat.mod_eq_of_lt hlo, show 1 % 32 = 1 from rfl,
      Nat.mod_eq_of_lt (show lo >>> 1 < 2 ^ 32 by
        rw [Nat.shiftRight_eq_div_pow]; omega)]
  have hsplit : (2:Nat) ^ (32 - s) * 2 ^ s = 2 ^ 32 := by
    rw [← pow_add, Nat.sub_add_cancel (show s ≤ 32 by omega)]
  have e1 : hi <<< s % 2 ^ 32 = (hi % 2 ^ (32 - s)) <<< s := by
    rw [Nat.shiftLeft_eq, Nat.shiftLeft_eq, ← hsplit, Nat.mul_mod_mul_right]
  have e2 : lo >>> 1 >>> (31 - s) = lo >>> (32 - s) := by
    rw [show 32 - s = 1 + (31 - s) by omega, Nat.shiftRight_add]
  have e3 : lo >>> (32 - s) < 2 ^ s := by
    rw [Nat.shiftRight_eq_div_pow,
        Nat.div_lt_iff_lt_mul (Nat.pos_pow_of_pos _ (by norm_num)), Nat.mul_comm, hsplit]
    exact hlo
  rw [e1, e2, shiftLeft_lor_add _ _ _ e3]
  simp only [Prod.mk.injEq, Nat.shiftLeft_eq, Nat.shiftRight_eq_div_pow]
  constructor
  · interval_cases s <;> omega
  · interval_cases s <;> omega

/-- SHL_PARTS matches the reference for amounts of 32 and above. -/
theorem lowerShl_ref_of_ge (lo hi s : Nat) (hlo : lo < 2 ^ 32) (hhi : hi < 2 ^ 32)
    (hs : 32 ≤ s) (hs64 : s < 64) : lowerShiftLeftParts lo hi s = refShl64 lo hi s := by
  have hm32 : add32 s (imm32 (-32)) = s - 32 := by
    simp only [add32, show imm32 (-32) = 2 ^ 32 - 32 from rfl]; omega
  have hccb : decide (sint32 (s - 32) < 0) = false := by
    apply decide_eq_false
    unfold sint32; split <;> (push_cast; omega)
  simp only [lowerShiftLeftParts, refShl64, ref64, shl32, srl32, hm32, hccb,
    Bool.false_eq_true, if_false]
  simp only [Nat.mod_eq_of_lt (show s - 32 < 32 by omega)]
  simp only [Prod.mk.injEq, Nat.shiftLeft_eq, Nat.shiftRight_eq_div_pow]
  constructor
  · interval_cases s <;> omega
  · interval_cases s <;> omega

/-- SRL_PARTS matches the reference 64-bit logical right shift for
amounts below the word width. -/
theorem lowerLshr_ref_of_lt (lo hi s : Nat) (hlo : lo < 2 ^ 32) (hhi : hi < 2 ^ 32)
    (hs : s < 32) : lowerShiftRightParts lo hi s false = refLshr64 lo hi s := by
  have hm32 : add32 s (imm32 (-32)) = s + (2 ^ 32 - 32) := by
    simp only [add32, show imm32 (-32) = 2 ^ 32 - 32 from rfl]; omega
  have hccb : decide (sint32 (s + (2 ^ 32 - 32)) < 0) = true := by
    rw [← hm32]
    apply decide_eq_true
    rw [hm32]; unfold sint32; split <;> [omega; (push_cast; omega)]
  have h31 : sub32 31 s = 31 - s := by simp only [sub32]; omega
  simp only [lowerShiftRightParts, refLshr64, ref64, shl32, srl32, hm32, h31, hccb,
    if_true, Bool.false_eq_true, if_false]
  rw [Nat.mod_eq_of_lt hs, Nat.mod_eq_of_lt (show 31 - s < 32 by omega),
      Nat.mod_eq_of_lt hlo, Nat.mod_eq_of_lt hhi, show 1 % 32 = 1 from rfl,
      Nat.mod_eq_of_lt (show hi * 2 ^ 32 + lo < 2 ^ 64 by omega)]
  have e1 : (hi <<< 1 % 2 ^ 32) <<< (31 - s) % 2 ^ 32 = (hi % 2 ^ s) <<< (32 - s) := by
    simp only [Nat.shiftLeft_eq]
    rw [show ((2:Nat) ^ 32) = 2 ^ (1 + s) * 2 ^ (31 - s) by
          rw [← pow_add, show 1 + s + (31 - s) = 32 by omega]]
    rw [Nat.mul_mod_mul_right]
    rw [Nat.mod_mod_of_dvd _ (dvd_mul_right _ _)]
    rw [show (2:Nat) ^ (1 + s) = 2 ^ s * 2 by rw [pow_add]; ring]
    rw [show hi * 2 ^ 1 = hi * 2 by norm_num]
    rw [Nat.mul_mod_mul_right]
    rw [mul_assoc, show (2:Nat) * 2 ^ (31 - s) = 2 ^ (32 - s) by
          rw [← pow_succ', show 31 - s + 1 = 32 - s by omega]]
  have e3 : lo >>> s < 2 ^ (32 - s) := by
    rw [Nat.shiftRight_eq_div_pow,
        Nat.div_lt_iff_lt_mul (Nat.pos_pow_of_pos _ (by norm_num)),
        ← pow_add, show 32 - s + s = 32 by omega]
    exact hlo
  rw [e1, Nat.lor_comm, shiftLeft_lor_add _ _ _ e3]
  simp only [Prod.mk.injEq, Nat.shiftLeft_eq, Nat.shiftRight_eq_div_pow]
  constructor
  · interval_cases s <;> omega
  · interval_cases s <;> omega

/-- SRL_PARTS matches the reference for amounts of 32 and above. -/
theorem lowerLshr_ref_of_ge (lo hi s : Nat) (hlo : lo < 2 ^ 32) (hhi : hi < 2 ^ 32)
    (hs : 32 ≤ s) (hs64 : s < 64) :
    lowerShiftRightParts lo hi s false = refLshr64 lo hi s := by
  have hm32 : add32 s (imm32 (-32)) = s - 32 := by
    simp only [add32, show imm32 (-32) = 2 ^ 32 - 32 from rfl]; omega
  have hccb : decide (sint32 (s - 32) < 0) = false := by
    apply decide_eq_false
    unfold sint32; split <;> (push_cast; omega)
  simp only [lowerShiftRightParts, refLshr64, ref64, shl32, srl32, hm32, hccb,
    Bool.false_eq_true, if_false]
  simp only [Nat.mod_eq_of_lt (show s - 32 < 32 by omega), Nat.mod_eq_of_lt hhi,
    Nat.mod_eq_of_lt (show hi * 2 ^ 32 + lo < 2 ^ 64 by omega)]
  simp only [Prod.mk.injEq, Nat.shiftLeft_eq, Nat.shiftRight_eq_div_pow]
  constructor
  · interval_cases s <;> omega
  · interval_cases s <;> omega

/-- SRA_PARTS matches the reference 64-bit arithmetic right shift for
amounts below the word width. -/
theorem lowerAshr_ref_of_lt (lo hi s : Nat) (hlo : lo < 2 ^ 32) (hhi : hi < 2 ^ 32)
    (hs : s < 32) : lowerShiftRightParts lo hi s true = refAshr64 lo hi s := by
  have hm32 : add32 s (imm32 (-32)) = s + (2 ^ 32 - 32) := by
    simp only [add32, show imm32 (-32) = 2 ^ 32 - 32 from rfl]; omega
  have hccb : decide (sint32 (s + (2 ^ 32 - 32)) < 0) = true := by
    rw [← hm32]
    apply decide_eq_true
    rw [hm32]; unfold sint32; split <;> [omega; (push_cast; omega)]
  have h31 : sub32 31 s = 31 - s := by simp only [sub32]; omega
  simp only [lowerShiftRightParts, refAshr64, ref64, shl32, srl32, sra32, ashrFill,
    hm32, h31, hccb, if_true]
  simp only [Nat.mod_eq_of_lt hs, Nat.mod_eq_of_lt (show 31 - s < 32 by omega),
    Nat.mod_eq_of_lt hlo, Nat.mod_eq_of_lt hhi, show 1 % 32 = 1 from rfl,
    Nat.mod_eq_of_lt (show hi * 2 ^ 32 + lo < 2 ^ 64 by omega),
    show 32 - 1 = 31 from rfl, show 64 - 1 = 63 from rfl]
  have e1 : (hi <<< 1 % 2 ^ 32) <<< (31 - s) % 2 ^ 32 = (hi % 2 ^ s) <<< (32 - s) := by
    simp only [Nat.shiftLeft_eq]
    rw [show ((2:Nat) ^ 32) = 2 ^ (1 + s) * 2 ^ (31 - s) by
          rw [← pow_add, show 1 + s + (31 - s) = 32 by omega]]
    rw [Nat.mul_mod_mul_right]
    rw [Nat.mod_mod_of_dvd _ (dvd_mul_right _ _)]
    rw [show (2:Nat) ^ (1 + s) = 2 ^ s * 2 by rw [pow_add]; ring]
    rw [show hi * 2 ^ 1 = hi * 2 by norm_num]
    rw [Nat.mul_mod_mul_right]
    rw [mul_assoc, show (2:Nat) * 2 ^ (31 - s) = 2 ^ (32 - s) by
          rw [← pow_succ', show 31 - s + 1 = 32 - s by omega]]
  have e3 : lo >>> s < 2 ^ (32 - s) := by
    rw [Nat.shiftRight_eq_div_pow,
        Nat.div_lt_iff_lt_mul (Nat.pos_pow_of_pos _ (by norm_num)),
        ← pow_add, show 32 - s + s = 32 by omega]
    exact hlo
  have e4 : hi >>> s < 2 ^ (32 - s) := by
    rw [Nat.shiftRight_eq_div_pow,
        Nat.div_lt_iff_lt_mul (Nat.pos_pow_of_pos _ (by norm_num)),
        ← pow_add, show 32 - s + s = 32 by omega]
    exact hhi
  have e5 : (hi * 2 ^ 32 + lo) >>> s < 2 ^ (64 - s) := by
    rw [Nat.shiftRight_eq_div_pow,
        Nat.div_lt_iff_lt_mul (Nat.pos_pow_of_pos _ (by norm_num)),
        ← pow_add, show 64 - s + s = 64 by omega]
    omega
  have hsign64 : (hi * 2 ^ 32 + lo) >>> 63 = hi >>> 31 := by
    simp only [Nat.shiftRight_eq_div_pow]; omega
  rw [e1, Nat.lor_comm (lo >>> s), shiftLeft_lor_add _ _ _ e3, hsign64]
  have hsg : hi >>> 31 = 0 ∨ hi >>> 31 = 1 := by
    rw [Nat.shiftRight_eq_div_pow]; omega
  rcases hsg with hsg | hsg
  · simp only [hsg, Nat.zero_mul, Nat.or_zero]
    rw [Nat.shiftRight_eq_div_pow] at hsg
    simp only [Prod.mk.injEq, Nat.shiftLeft_eq, Nat.shiftRight_eq_div_pow]
    constructor
    · interval_cases s <;> omega
    · interval_cases s <;> omega
  · simp only [hsg, Nat.one_mul]
    rw [Nat.lor_comm (hi >>> s), shiftLeft_lor_add _ _ _ e4,
        Nat.lor_comm _ ((2 ^ s - 1) <<< (64 - s)), shiftLeft_lor_add _ _ _ e5]
    rw [Nat.shiftRight_eq_div_pow] at hsg
    simp only [Prod.mk.injEq, Nat.shiftLeft_eq, Nat.shiftRight_eq_div_pow]
    constructor
    · interval_cases s <;> omega
    · interval_cases s <;> omega

/-- SRA_PARTS matches the reference for amounts of 32 and above. -/
theorem lowerAshr_ref_of_ge (lo hi s : Nat) (hlo : lo < 2 ^ 32) (hhi : hi < 2 ^ 32)
    (hs : 32 ≤ s) (hs64 : s < 64) :
    lowerShiftRightParts lo hi s true = refAshr64 lo hi s := by
  have hm32 : add32 s (imm32 (-32)) = s - 32 := by
    simp only [add32, show imm32 (-32) = 2 ^ 32 - 32 from rfl]; omega
  have hccb : decide (sint32 (s - 32) < 0) = false := by
    apply decide_eq_false
    unfold sint32; split <;> (push_cast; omega)
  simp only [lowerShiftRightParts, refAshr64, ref64, shl32, srl32, sra32, ashrFill,
    hm32, hccb, Bool.false_eq_true, if_false, if_true]
  simp only [Nat.mod_eq_of_lt (show s - 32 < 32 by omega), Nat.mod_eq_of_lt hhi,
    Nat.mod_eq_of_lt hlo,
    Nat.mod_eq_of_lt (show hi * 2 ^ 32 + lo < 2 ^ 64 by omega),
    show (31:Nat) % 32 = 31 from rfl, show 32 - 1 = 31 from rfl,
    show 64 - 1 = 63 from rfl, show (32:Nat) - 31 = 1 from rfl]
  have e4 : hi >>> (s - 32) < 2 ^ (32 - (s - 32)) := by
    rw [Nat.shiftRight_eq_div_pow,
        Nat.div_lt_iff_lt_mul (Nat.pos_pow_of_pos _ (by norm_num)),
        ← pow_add, show 32 - (s - 32) + (s - 32) = 32 by omega]
    exact hhi
  have e5 : (hi * 2 ^ 32 + lo) >>> s < 2 ^ (64 - s) := by
    rw [Nat.shiftRight_eq_div_pow,
        Nat.div_lt_iff_lt_mul (Nat.pos_pow_of_pos _ (by norm_num)),
        ← pow_add, show 64 - s + s = 64 by omega]
    omega
  have hsign64 : (hi * 2 ^ 32 + lo) >>> 63 = hi >>> 31 := by
    simp only [Nat.shiftRight_eq_div_pow]; omega
  rw [hsign64]
  have hsg : hi >>> 31 = 0 ∨ hi >>> 31 = 1 := by
    rw [Nat.shiftRight_eq_div_pow]; omega
  rcases hsg with hsg | hsg
  · simp only [hsg, Nat.zero_mul, Nat.or_zero]
    rw [Nat.shiftRight_eq_div_pow] at hsg
    simp only [Prod.mk.injEq, Nat.shiftLeft_eq, Nat.shiftRight_eq_div_pow]
    constructor
    · interval_cases s <;> omega
    · interval_cases s <;> omega
  · simp only [hsg, Nat.one_mul]
    rw [Nat.lor_comm (hi >>> (s - 32)), shiftLeft_lor_add _ _ _ e4,
        Nat.lor_comm 1 ((2 ^ 31 - 1) <<< 1),
        shiftLeft_lor_add _ _ _ (show (1:Nat) < 2 ^ 1 by norm_num),
        Nat.lor_comm _ ((2 ^ s - 1) <<< (64 - s)), shiftLeft_lor_add _ _ _ e5]
    rw [Nat.shiftRight_eq_div_pow] at hsg
    simp only [Prod.mk.injEq, Nat.shiftLeft_eq, Nat.shiftRight_eq_div_pow]
    constructor
    · interval_cases s <;> omega
    · interval_cases s <;> omega

/-! ### Claim theorems -/

/-- C1: every expansion of the fused compare-and-branch pseudos
(CMP_BR_CC, BR_CC_CMP_PSEUDO, BR_CC_CMP_IMM_PSEUDO) emits the compare
immediately followed by its dependent conditional branch(es) and nothing
else — in particular no register move stands between the compare and the
first branch — and the fused pseudo is marked a block terminator, so
allocator copies at join points land before it. -/
theorem fused_cmp_branch_expansion (lhs rhs : Reg) (imm : Int) (cc : CondCode)
    (target : Nat) (next : Option Nat) :
    expandCMP_BR_CC lhs rhs cc target next =
      MInst.CMPR_DP lhs rhs :: brccBranches cc target next ∧
    expandBR_CC_CMP_PSEUDO lhs rhs cc target next =
      MInst.CMPR_DP lhs rhs :: brccBranches cc target next ∧
    expandBR_CC_CMP_IMM_PSEUDO lhs imm cc target next =
      MInst.CMPR_IMM lhs imm :: brccBranches cc target next ∧
    brccBranches cc target next ≠ [] ∧
    (∀ i ∈ brccBranches cc target next, i.isBranch = true ∧ i.isRegMove = false) ∧
    cmpBrCCIsTerminator = true := by
  refine ⟨rfl, rfl, rfl, ?_, ?_, rfl⟩ <;>
    cases cc <;> cases next <;>
      simp [brccBranches, MInst.isBranch, MInst.isRegMove]

/-- C2: the integer condition canonicalization shared by LowerBR_CC,
LowerSELECT_CC and LowerSETCC always produces a natively branchable
relation, and the canonical relation on the (possibly swapped) operands
evaluates to the same boolean as the original relation on the original
operands. -/
theorem int_condcode_canonicalization (cc : CondCode) (a b : Nat)
    (hcc : cc.isInteger = true) :
    (canonicalizeIntCondCode cc a b).1.isNativelyBranchable = true ∧
    evalIntCC (canonicalizeIntCondCode cc a b).1 (canonicalizeIntCondCode cc a b).2.1
        (canonicalizeIntCondCode cc a b).2.2 =
      evalIntCC cc a b := by
  cases cc <;> simp_all [canonicalizeIntCondCode, CondCode.isInteger,
    CondCode.isNativelyBranchable, evalIntCC]

/-- Witness for C2 at the concrete input SETGT, 3, 5. -/
theorem int_condcode_canonicalization_witness :
    CondCode.isInteger .SETGT = true ∧
    ((canonicalizeIntCondCode CondCode.SETGT 3 5).1.isNativelyBranchable = true ∧
     evalIntCC (canonicalizeIntCondCode CondCode.SETGT 3 5).1
        (canonicalizeIntCondCode CondCode.SETGT 3 5).2.1
        (canonicalizeIntCondCode CondCode.SETGT 3 5).2.2 =
       evalIntCC CondCode.SETGT 3 5) :=
  ⟨by decide, int_condcode_canonicalization CondCode.SETGT 3 5 (by decide)⟩

/-- C3 counterexample: for the strictly-greater condition with a
fall-through block, the expansion is BEQ fall-through; BMI fall-through;
BRA destination — not two chained conditional branches targeting the
destination. -/
theorem composite_branch_counterexample :
    twoChainedCondBranchesTo (expandBR_CC_PSEUDO CondCode.SETGT 1 (some 2)) 1 = false := by
  decide

/-- C3 (amended): for less-or-equal and unsigned-less-or-equal the
expansion is two chained conditional branches targeting the destination,
falling through otherwise; strictly-greater instead branches to the
fall-through block on the complementary conditions and then jumps
unconditionally to the destination, and unsigned-greater pairs a
branch-if-equal to the fall-through with a branch-if-carry-set to the
destination; in all four cases control reaches the destination exactly
when the condition holds and the fall-through block otherwise. -/
theorem composite_branch_amended (cc : CondCode) (a b target next : Nat)
    (hcc : cc = CondCode.SETGT ∨ cc = CondCode.SETLE ∨
           cc = CondCode.SETUGT ∨ cc = CondCode.SETULE)
    (ha : a < 2 ^ 32) (hb : b < 2 ^ 32) :
    (branchResolve (cmpFlags a b) (brccBranches cc target (some next)) next =
      if evalIntCC cc a b then target else next) ∧
    ((cc = CondCode.SETLE ∨ cc = CondCode.SETULE) →
      twoChainedCondBranchesTo (brccBranches cc target (some next)) target = true) ∧
    (cc = CondCode.SETGT →
      brccBranches cc target (some next) =
        [MInst.BEQ (.block next), MInst.BMI (.block next), MInst.BRA (.block target)]) ∧
    (cc = CondCode.SETUGT →
      brccBranches cc target (some next) =
        [MInst.BEQ (.block next), MInst.BCS (.block target)]) := by
  have hinj := sint32_injOn a b ha hb
  rcases hcc with rfl | rfl | rfl | rfl
  · refine ⟨?_, by simp, fun _ => rfl, by simp⟩
    by_cases hab : a = b <;> by_cases hlt : sint32 a < sint32 b <;>
      by_cases hgt : sint32 b < sint32 a <;>
      simp_all [brccBranches, branchResolve, firstTakenBranch, branchCond, cmpFlags,
        MInst.targetOf, evalIntCC, beq_iff_eq] <;>
      first
      | omega
      | (split_ifs <;> first | omega | (simp_all <;> omega))
  · refine ⟨?_, fun _ => by
      simp [brccBranches, twoChainedCondBranchesTo, MInst.isCondBranch, MInst.targetOf],
      by simp, by simp⟩
    by_cases hab : a = b <;> by_cases hlt : sint32 a < sint32 b <;>
      by_cases hle : sint32 a ≤ sint32 b <;>
      simp_all [brccBranches, branchResolve, firstTakenBranch, branchCond, cmpFlags,
        MInst.targetOf, evalIntCC, beq_iff_eq] <;>
      first
      | omega
      | (split_ifs <;> first | omega | (simp_all <;> omega))
  · refine ⟨?_, by simp, by simp, fun _ => rfl⟩
    by_cases hab : a = b <;> by_cases hc : b ≤ a <;>
      by_cases hgtu : b < a <;>
      simp_all [brccBranches, branchResolve, firstTakenBranch, branchCond, cmpFlags,
        MInst.targetOf, evalIntCC, beq_iff_eq] <;>
      first
      | omega
      | (split_ifs <;> first | omega | (simp_all <;> omega))
  · refine ⟨?_, fun _ => by
      simp [brccBranches, twoChainedCondBranchesTo, MInst.isCondBranch, MInst.targetOf],
      by simp, by simp⟩
    by_cases hab : a = b <;> by_cases hc : b ≤ a <;>
      by_cases hleu : a ≤ b <;>
      simp_all [brccBranches, branchResolve, firstTakenBranch, branchCond, cmpFlags,
        MInst.targetOf, evalIntCC, beq_iff_eq] <;>
      first
      | omega
      | (split_ifs <;> first | omega | (simp_all <;> omega))

/-- Witness for C3 (amended) at the concrete input SETLE, 3, 5, blocks
10 and 20. -/
theorem composite_branch_amended_witness :
    (CondCode.SETLE = CondCode.SETGT ∨ CondCode.SETLE = CondCode.SETLE ∨
     CondCode.SETLE = CondCode.SETUGT ∨ CondCode.SETLE = CondCode.SETULE) ∧
    (3 : Nat) < 2 ^ 32 ∧ (5 : Nat) < 2 ^ 32 ∧
    ((branchResolve (cmpFlags 3 5) (brccBranches CondCode.SETLE 10 (some 20)) 20 =
       if evalIntCC CondCode.SETLE 3 5 then 10 else 20) ∧
     ((CondCode.SETLE = CondCode.SETLE ∨ CondCode.SETLE = CondCode.SETULE) →
       twoChainedCondBranchesTo (brccBranches CondCode.SETLE 10 (some 20)) 10 = true) ∧
     (CondCode.SETLE = CondCode.SETGT →
       brccBranches CondCode.SETLE 10 (some 20) =
         [MInst.BEQ (.block 20), MInst.BMI (.block 20), MInst.BRA (.block 10)]) ∧
     (CondCode.SETLE = CondCode.SETUGT →
       brccBranches CondCode.SETLE 10 (some 20) =
         [MInst.BEQ (.block 20), MInst.BCS (.block 10)])) :=
  ⟨Or.inr (Or.inl rfl), by norm_num, by norm_num,
   composite_branch_amended CondCode.SETLE 3 5 10 20 (Or.inr (Or.inl rfl))
     (by norm_num) (by norm_num)⟩

/-- C4: for an immediate PC-relative branch target N bytes past the
instruction start, the encoded 16-bit offset reproduces N exactly under
the hardware rule target = address-after-instruction + offset, for
forward and backward branches alike; and the symbolic-fixup addend is
minus the distance from the fixup location to the instruction's end. -/
theorem pcrel16_bias_correct (addr : Nat) (N : Int)
    (h1 : -(2 ^ 15) ≤ N - 3) (h2 : N - 3 < 2 ^ 15) :
    branchTarget16 addr (encodePCRelImm16 N) = (addr : Int) + N ∧
    pcrelFixupAddend =
      -(((branchInstrSize : Int)) - ((pcrelFixupOffsetInInstr : Nat) : Int)) := by
  constructor
  · simp only [branchTarget16, encodePCRelImm16, sint16,
      show ((2:Int) ^ 16) = 65536 from by norm_num,
      show (2 ^ 15 : Nat) = 32768 from by norm_num]
    simp only [show ∀ x y : Int, x.emod y = x % y from fun _ _ => rfl]
    split <;> omega
  · decide

/-- Witness for C4 at a backward branch: address 100, displacement -5. -/
theorem pcrel16_bias_correct_witness :
    (-(2 ^ 15) ≤ (-5 : Int) - 3) ∧ ((-5 : Int) - 3 < 2 ^ 15) ∧
    (branchTarget16 100 (encodePCRelImm16 (-5)) = (100 : Int) + (-5) ∧
     pcrelFixupAddend =
       -(((branchInstrSize : Int)) - ((pcrelFixupOffsetInInstr : Nat) : Int))) :=
  ⟨by norm_num, by norm_num, pcrel16_bias_correct 100 (-5) (by norm_num) (by norm_num)⟩

/-- C5: for a function that uses a frame pointer, R29 is removed from
the computed callee-save set, and neither the spill walk nor the restore
walk ever touches R29's direct-page slot — it is saved and restored only
by the prologue and epilogue. -/
theorem frame_base_excluded_from_callee_saves (base csi : List Reg) :
    Reg.R 29 ∉ determineCalleeSaves base true ∧
    MInst.LDA_DP (getDPOffset (Reg.R 29)) ∉ spillCalleeSavedRegisters csi true ∧
    MInst.STA_DP (getDPOffset (Reg.R 29)) ∉ restoreCalleeSavedRegisters csi true := by
  refine ⟨?_, ?_, ?_⟩
  · simp [determineCalleeSaves, List.mem_filter]
  · intro h
    simp only [spillCalleeSavedRegisters, List.mem_flatMap] at h
    obtain ⟨r, hr, hi⟩ := h
    by_cases h29 : r = Reg.R 29
    · subst h29; simp at hi
    · rw [if_neg (by simp [h29])] at hi
      simp [getDPOffset] at hi
      exact h29 (getDPOffset_eq_29 r (by simpa [getDPOffset] using hi.symm))
  · intro h
    simp only [restoreCalleeSavedRegisters, List.mem_flatMap] at h
    obtain ⟨r, hr, hi⟩ := h
    by_cases h29 : r = Reg.R 29
    · subst h29; simp at hi
    · rw [if_neg (by simp [h29])] at hi
      simp [getDPOffset] at hi
      exact h29 (getDPOffset_eq_29 r (by simpa [getDPOffset] using hi.symm))

/-- C6: the reserved call-frame size is the maximum of the stack-argument
byte count and the 4-byte return-address push width, so it is at least 4
even with no stack arguments, and CALLSEQ_START and CALLSEQ_END receive
the same amount. -/
theorem call_frame_reservation (stackSize : Nat) :
    (lowerCallSeq stackSize).startAmt = max stackSize 4 ∧
    (lowerCallSeq stackSize).endAmt = (lowerCallSeq stackSize).startAmt ∧
    4 ≤ (lowerCallSeq stackSize).startAmt ∧
    (lowerCallSeq 0).startAmt = 4 := by
  refine ⟨rfl, rfl, ?_, rfl⟩
  exact le_max_right _ _

/-- C10 counterexample: a function with no variable-sized objects, no
frame-address use and no disabled frame-pointer elimination requires no
frame base, yet R29 is in its reserved register set. -/
theorem frame_base_reserved_counterexample :
    hasFPImpl false false false = false ∧
    getReservedRegs (hasFPImpl false false false) (Reg.R 29) = true := by decide

/-- C10 (amended): R29, the frame-base register, is reserved for every
function — it sits in the kernel-reserved range R24–R29 which
getReservedRegs reserves unconditionally, independent of whether the
function requires a frame base. -/
theorem frame_base_reserved_unconditionally (needsFrameBase : Bool) :
    getReservedRegs needsFrameBase (Reg.R 29) = true := by
  cases needsFrameBase <;> decide

/-- C8: every register-register and register-immediate ALU pseudo
expands to the accumulator-mediated sequence that starts by loading
src1's direct-page slot and ends by storing the accumulator to the
destination's slot, the run of that sequence leaves dst = src1 op src2
(32-bit semantics), and no direct-page slot other than the destination's
is written — only the accumulator and the status flags are additionally
clobbered. -/
theorem alu_pseudo_accumulator_expansion (p : ALUPseudo) (q : ALUImmPseudo)
    (dst src1 src2 : Reg) (imm : Int) (st : AluState)
    (hwf : ∀ d, st.dp d < 2 ^ 32) :
    ((expandALU_GPR p dst src1 src2).head? = some (MInst.LDA_DP (getDPOffset src1)) ∧
     (expandALU_GPR p dst src1 src2).getLast? = some (MInst.STA_DP (getDPOffset dst)) ∧
     (runAlu (expandALU_GPR p dst src1 src2) st).dp (getDPOffset dst) =
       p.refSem (st.dp (getDPOffset src1)) (st.dp (getDPOffset src2)) ∧
     ∀ d, d ≠ getDPOffset dst →
       (runAlu (expandALU_GPR p dst src1 src2) st).dp d = st.dp d) ∧
    ((expandALUImm_GPR q dst src1 imm).head? = some (MInst.LDA_DP (getDPOffset src1)) ∧
     (expandALUImm_GPR q dst src1 imm).getLast? = some (MInst.STA_DP (getDPOffset dst)) ∧
     (runAlu (expandALUImm_GPR q dst src1 imm) st).dp (getDPOffset dst) =
       q.refSem (st.dp (getDPOffset src1)) (imm32 imm) ∧
     ∀ d, d ≠ getDPOffset dst →
       (runAlu (expandALUImm_GPR q dst src1 imm) st).dp d = st.dp d) := by
  have h1 := hwf (getDPOffset src1)
  have h2 := hwf (getDPOffset src2)
  have h3 := imm32_lt imm
  have m1 : st.dp (getDPOffset src1) % 4294967296 = st.dp (getDPOffset src1) :=
    Nat.mod_eq_of_lt (by omega)
  have m2 : st.dp (getDPOffset src2) % 4294967296 = st.dp (getDPOffset src2) :=
    Nat.mod_eq_of_lt (by omega)
  have m3 : imm32 imm % 4294967296 = imm32 imm := Nat.mod_eq_of_lt (by omega)
  constructor
  · cases p <;>
      refine ⟨rfl, rfl, ?_, fun d hd => ?_⟩ <;>
        simp [expandALU_GPR, runAlu, aluStep, adcVal, adcCarry, sbcVal, sbcCarry,
          ALUPseudo.refSem, m1, m2] <;>
        first
        | omega
        | rw [if_neg hd]
        | simp [hd]
  · cases q <;>
      refine ⟨rfl, rfl, ?_, fun d hd => ?_⟩ <;>
        simp [expandALUImm_GPR, runAlu, aluStep, adcVal, adcCarry, sbcVal, sbcCarry,
          ALUImmPseudo.refSem, m1, m3] <;>
        first
        | omega
        | rw [if_neg hd]
        | simp [hd]

/-- Witness for C8: ADD_GPR / ADDI_GPR on the sample direct page, with
dst = R2, src1 = R0, src2 = R1 and immediate 9. -/
theorem alu_pseudo_accumulator_expansion_witness :
    (∀ d, sampleAluState.dp d < 2 ^ 32) ∧
    (((expandALU_GPR .ADD_GPR (Reg.R 2) (Reg.R 0) (Reg.R 1)).head? =
        some (MInst.LDA_DP (getDPOffset (Reg.R 0))) ∧
      (expandALU_GPR .ADD_GPR (Reg.R 2) (Reg.R 0) (Reg.R 1)).getLast? =
        some (MInst.STA_DP (getDPOffset (Reg.R 2))) ∧
      (runAlu (expandALU_GPR .ADD_GPR (Reg.R 2) (Reg.R 0) (Reg.R 1))
          sampleAluState).dp (getDPOffset (Reg.R 2)) =
        ALUPseudo.refSem .ADD_GPR (sampleAluState.dp (getDPOffset (Reg.R 0)))
          (sampleAluState.dp (getDPOffset (Reg.R 1))) ∧
      ∀ d, d ≠ getDPOffset (Reg.R 2) →
        (runAlu (expandALU_GPR .ADD_GPR (Reg.R 2) (Reg.R 0) (Reg.R 1))
            sampleAluState).dp d = sampleAluState.dp d) ∧
     ((expandALUImm_GPR .ADDI_GPR (Reg.R 2) (Reg.R 0) 9).head? =
        some (MInst.LDA_DP (getDPOffset (Reg.R 0))) ∧
      (expandALUImm_GPR .ADDI_GPR (Reg.R 2) (Reg.R 0) 9).getLast? =
        some (MInst.STA_DP (getDPOffset (Reg.R 2))) ∧
      (runAlu (expandALUImm_GPR .ADDI_GPR (Reg.R 2) (Reg.R 0) 9)
          sampleAluState).dp (getDPOffset (Reg.R 2)) =
        ALUImmPseudo.refSem .ADDI_GPR (sampleAluState.dp (getDPOffset (Reg.R 0)))
          (imm32 9) ∧
      ∀ d, d ≠ getDPOffset (Reg.R 2) →
        (runAlu (expandALUImm_GPR .ADDI_GPR (Reg.R 2) (Reg.R 0) 9)
            sampleAluState).dp d = sampleAluState.dp d)) :=
  ⟨sampleAluState_wf,
   alu_pseudo_accumulator_expansion .ADD_GPR .ADDI_GPR (Reg.R 2) (Reg.R 0) (Reg.R 1)
     9 sampleAluState sampleAluState_wf⟩

set_option maxHeartbeats 2000000 in
/-- C7: for every aliasing combination of destination, true-value and
false-value registers, the SELECT_CC_PSEUDO expansion leaves the
destination holding the true value exactly when the condition holds on
the original operand values and the false value otherwise, touches no
other register, contains no self-copy (the redundant copy is the one
skipped), and emits at most two register moves — at most one when the
destination aliases a source. -/
theorem select_cc_pseudo_aliasing (cc : CondCode) (dst lhs rhs tv fv : Reg)
    (st : SelState) (hcc : cc.isInteger = true)
    (hwf : ∀ r, st.regs r < 2 ^ 32) :
    (execSelect (expandSELECT_CC_PSEUDO dst lhs rhs tv fv cc) st).regs dst =
      (if evalIntCC cc (st.regs lhs) (st.regs rhs) then st.regs tv else st.regs fv) ∧
    (∀ r, r ≠ dst →
      (execSelect (expandSELECT_CC_PSEUDO dst lhs rhs tv fv cc) st).regs r = st.regs r) ∧
    (∀ d s', MInst.MOVR_DP d s' ∈ expandSELECT_CC_PSEUDO dst lhs rhs tv fv cc → s' ≠ d) ∧
    (expandSELECT_CC_PSEUDO dst lhs rhs tv fv cc).countP (fun i => i.isRegMove) ≤ 2 ∧
    ((tv = dst ∨ fv = dst) →
      (expandSELECT_CC_PSEUDO dst lhs rhs tv fv cc).countP (fun i => i.isRegMove) ≤ 1) := by
  have hinj := sint32_injOn (st.regs lhs) (st.regs rhs) (hwf lhs) (hwf rhs)
  cases cc
  case SETEQ =>
    by_cases htd : tv = dst <;>
      by_cases htf : tv = fv <;>
      by_cases hfd : fv = dst <;>
      by_cases hab : st.regs lhs = st.regs rhs <;>
        refine ⟨?_, fun r hr => ?_, fun d s' hmem => ?_, ?_, fun hal => ?_⟩ <;>
        simp_all [expandSELECT_CC_PSEUDO, execSelect, execSelN, dropToPos, minstSize, selStep,
          branchCond, cmpFlags, MInst.targetOf, evalIntCC, invertCC, selectSkipBranches,
          MInst.isRegMove, beq_iff_eq] <;>
        first
        | omega
        | ((obtain ⟨rfl, rfl⟩ | ⟨rfl, rfl⟩ := hmem <;> simp_all); done)
        | ((obtain ⟨rfl, rfl⟩ := hmem; simp_all); done)
        | (split <;>
            first
            | omega
            | (simp_all <;> omega)
            | (split <;> first | omega | (simp_all <;> omega)))
  case SETNE =>
    by_cases htd : tv = dst <;>
      by_cases htf : tv = fv <;>
      by_cases hfd : fv = dst <;>
      by_cases hab : st.regs lhs = st.regs rhs <;>
        refine ⟨?_, fun r hr => ?_, fun d s' hmem => ?_, ?_, fun hal => ?_⟩ <;>
        simp_all [expandSELECT_CC_PSEUDO, execSelect, execSelN, dropToPos, minstSize, selStep,
          branchCond, cmpFlags, MInst.targetOf, evalIntCC, invertCC, selectSkipBranches,
          MInst.isRegMove, beq_iff_eq] <;>
        first
        | omega
        | ((obtain ⟨rfl, rfl⟩ | ⟨rfl, rfl⟩ := hmem <;> simp_all); done)
        | ((obtain ⟨rfl, rfl⟩ := hmem; simp_all); done)
        | (split <;>
            first
            | omega
            | (simp_all <;> omega)
            | (split <;> first | omega | (simp_all <;> omega)))
  case SETLT =>
    by_cases htd : tv = dst <;>
      by_cases htf : tv = fv <;>
      by_cases hfd : fv = dst <;>
      by_cases hlt : sint32 (st.regs lhs) < sint32 (st.regs rhs) <;>
        refine ⟨?_, fun r hr => ?_, fun d s' hmem => ?_, ?_, fun hal => ?_⟩ <;>
        simp_all [expandSELECT_CC_PSEUDO, execSelect, execSelN, dropToPos, minstSize, selStep,
          branchCond, cmpFlags, MInst.targetOf, evalIntCC, invertCC, selectSkipBranches,
          MInst.isRegMove, beq_iff_eq] <;>
        first
        | omega
        | ((obtain ⟨rfl, rfl⟩ | ⟨rfl, rfl⟩ := hmem <;> simp_all); done)
        | ((obtain ⟨rfl, rfl⟩ := hmem; simp_all); done)
        | (split <;>
            first
            | omega
            | (simp_all <;> omega)
            | (split <;> first | omega | (simp_all <;> omega)))
  case SETGE =>
    by_cases htd : tv = dst <;>
      by_cases htf : tv = fv <;>
      by_cases hfd : fv = dst <;>
      by_cases hlt : sint32 (st.regs lhs) < sint32 (st.regs rhs) <;>
      by_cases hge : sint32 (st.regs rhs) ≤ sint32 (st.regs lhs) <;>
        refine ⟨?_, fun r hr => ?_, fun d s' hmem => ?_, ?_, fun hal => ?_⟩ <;>
        simp_all [expandSELECT_CC_PSEUDO, execSelect, execSelN, dropToPos, minstSize, selStep,
          branchCond, cmpFlags, MInst.targetOf, evalIntCC, invertCC, selectSkipBranches,
          MInst.isRegMove, beq_iff_eq] <;>
        first
        | omega
        | ((obtain ⟨rfl, rfl⟩ | ⟨rfl, rfl⟩ := hmem <;> simp_all); done)
        | ((obtain ⟨rfl, rfl⟩ := hmem; simp_all); done)
        | (split <;>
            first
            | omega
            | (simp_all <;> omega)
            | (split <;> first | omega | (simp_all <;> omega)))
  case SETGT =>
    by_cases htd : tv = dst <;>
      by_cases htf : tv = fv <;>
      by_cases hfd : fv = dst <;>
      by_cases hab : st.regs lhs = st.regs rhs <;>
      by_cases hlt : sint32 (st.regs lhs) < sint32 (st.regs rhs) <;>
      by_cases hgt : sint32 (st.regs rhs) < sint32 (st.regs lhs) <;>
        refine ⟨?_, fun r hr => ?_, fun d s' hmem => ?_, ?_, fun hal => ?_⟩ <;>
        simp_all [expandSELECT_CC_PSEUDO, execSelect, execSelN, dropToPos, minstSize, selStep,
          branchCond, cmpFlags, MInst.targetOf, evalIntCC, invertCC, selectSkipBranches,
          MInst.isRegMove, beq_iff_eq] <;>
        first
        | omega
        | ((obtain ⟨rfl, rfl⟩ | ⟨rfl, rfl⟩ := hmem <;> simp_all); done)
        | ((obtain ⟨rfl, rfl⟩ := hmem; simp_all); done)
        | (split <;>
            first
            | omega
            | (simp_all <;> omega)
            | (split <;> first | omega | (simp_all <;> omega)))
  case SETLE =>
    by_cases htd : tv = dst <;>
      by_cases htf : tv = fv <;>
      by_cases hfd : fv = dst <;>
      by_cases hab : st.regs lhs = st.regs rhs <;>
      by_cases hlt : sint32 (st.regs lhs) < sint32 (st.regs rhs) <;>
      by_cases hle : sint32 (st.regs lhs) ≤ sint32 (st.regs rhs) <;>
        refine ⟨?_, fun r hr => ?_, fun d s' hmem => ?_, ?_, fun hal => ?_⟩ <;>
        simp_all [expandSELECT_CC_PSEUDO, execSelect, execSelN, dropToPos, minstSize, selStep,
          branchCond, cmpFlags, MInst.targetOf, evalIntCC, invertCC, selectSkipBranches,
          MInst.isRegMove, beq_iff_eq] <;>
        first
        | omega
        | ((obtain ⟨rfl, rfl⟩ | ⟨rfl, rfl⟩ := hmem <;> simp_all); done)
        | ((obtain ⟨rfl, rfl⟩ := hmem; simp_all); done)
        | (split <;>
            first
            | omega
            | (simp_all <;> omega)
            | (split <;> first | omega | (simp_all <;> omega)))
  case SETULT =>
    by_cases htd : tv = dst <;>
      by_cases htf : tv = fv <;>
      by_cases hfd : fv = dst <;>
      by_cases hc : st.regs rhs ≤ st.regs lhs <;>
      by_cases hult : st.regs lhs < st.regs rhs <;>
        refine ⟨?_, fun r hr => ?_, fun d s' hmem => ?_, ?_, fun hal => ?_⟩ <;>
        simp_all [expandSELECT_CC_PSEUDO, execSelect, execSelN, dropToPos, minstSize, selStep,
          branchCond, cmpFlags, MInst.targetOf, evalIntCC, invertCC, selectSkipBranches,
          MInst.isRegMove, beq_iff_eq] <;>
        first
        | omega
        | ((obtain ⟨rfl, rfl⟩ | ⟨rfl, rfl⟩ := hmem <;> simp_all); done)
        | ((obtain ⟨rfl, rfl⟩ := hmem; simp_all); done)
        | (split <;>
            first
            | omega
            | (simp_all <;> omega)
            | (split <;> first | omega | (simp_all <;> omega)))
  case SETUGE =>
    by_cases htd : tv = dst <;>
      by_cases htf : tv = fv <;>
      by_cases hfd : fv = dst <;>
      by_cases hc : st.regs rhs ≤ st.regs lhs <;>
        refine ⟨?_, fun r hr => ?_, fun d s' hmem => ?_, ?_, fun hal => ?_⟩ <;>
        simp_all [expandSELECT_CC_PSEUDO, execSelect, execSelN, dropToPos, minstSize, selStep,
          branchCond, cmpFlags, MInst.targetOf, evalIntCC, invertCC, selectSkipBranches,
          MInst.isRegMove, beq_iff_eq] <;>
        first
        | omega
        | ((obtain ⟨rfl, rfl⟩ | ⟨rfl, rfl⟩ := hmem <;> simp_all); done)
        | ((obtain ⟨rfl, rfl⟩ := hmem; simp_all); done)
        | (split <;>
            first
            | omega
            | (simp_all <;> omega)
            | (split <;> first | omega | (simp_all <;> omega)))
  case SETUGT =>
    by_cases htd : tv = dst <;>
      by_cases htf : tv = fv <;>
      by_cases hfd : fv = dst <;>
      by_cases hab : st.regs lhs = st.regs rhs <;>
      by_cases hc : st.regs rhs ≤ st.regs lhs <;>
      by_cases hugt : st.regs rhs < st.regs lhs <;>
        refine ⟨?_, fun r hr => ?_, fun d s' hmem => ?_, ?_, fun hal => ?_⟩ <;>
        simp_all [expandSELECT_CC_PSEUDO, execSelect, execSelN, dropToPos, minstSize, selStep,
          branchCond, cmpFlags, MInst.targetOf, evalIntCC, invertCC, selectSkipBranches,
          MInst.isRegMove, beq_iff_eq] <;>
        first
        | omega
        | ((obtain ⟨rfl, rfl⟩ | ⟨rfl, rfl⟩ := hmem <;> simp_all); done)
        | ((obtain ⟨rfl, rfl⟩ := hmem; simp_all); done)
        | (split <;>
            first
            | omega
            | (simp_all <;> omega)
            | (split <;> first | omega | (simp_all <;> omega)))
  case SETULE =>
    by_cases htd : tv = dst <;>
      by_cases htf : tv = fv <;>
      by_cases hfd : fv = dst <;>
      by_cases hab : st.regs lhs = st.regs rhs <;>
      by_cases hc : st.regs rhs ≤ st.regs lhs <;>
      by_cases hule : st.regs lhs ≤ st.regs rhs <;>
        refine ⟨?_, fun r hr => ?_, fun d s' hmem => ?_, ?_, fun hal => ?_⟩ <;>
        simp_all [expandSELECT_CC_PSEUDO, execSelect, execSelN, dropToPos, minstSize, selStep,
          branchCond, cmpFlags, MInst.targetOf, evalIntCC, invertCC, selectSkipBranches,
          MInst.isRegMove, beq_iff_eq] <;>
        first
        | omega
        | ((obtain ⟨rfl, rfl⟩ | ⟨rfl, rfl⟩ := hmem <;> simp_all); done)
        | ((obtain ⟨rfl, rfl⟩ := hmem; simp_all); done)
        | (split <;>
            first
            | omega
            | (simp_all <;> omega)
            | (split <;> first | omega | (simp_all <;> omega)))
  all_goals simp [CondCode.isInteger] at hcc

/-- Witness for C7: SETLT with dst = R0, lhs = R1, rhs = R2, tv = R3,
fv = R4 on the sample register file. -/
theorem select_cc_pseudo_aliasing_witness :
    CondCode.isInteger .SETLT = true ∧
    (∀ r, sampleSelState.regs r < 2 ^ 32) ∧
    ((execSelect (expandSELECT_CC_PSEUDO (Reg.R 0) (Reg.R 1) (Reg.R 2) (Reg.R 3)
          (Reg.R 4) .SETLT) sampleSelState).regs (Reg.R 0) =
       (if evalIntCC .SETLT (sampleSelState.regs (Reg.R 1))
            (sampleSelState.regs (Reg.R 2)) then
          sampleSelState.regs (Reg.R 3)
        else sampleSelState.regs (Reg.R 4)) ∧
     (∀ r, r ≠ Reg.R 0 →
       (execSelect (expandSELECT_CC_PSEUDO (Reg.R 0) (Reg.R 1) (Reg.R 2) (Reg.R 3)
           (Reg.R 4) .SETLT) sampleSelState).regs r = sampleSelState.regs r) ∧
     (∀ d s', MInst.MOVR_DP d s' ∈
         expandSELECT_CC_PSEUDO (Reg.R 0) (Reg.R 1) (Reg.R 2) (Reg.R 3) (Reg.R 4) .SETLT →
       s' ≠ d) ∧
     (expandSELECT_CC_PSEUDO (Reg.R 0) (Reg.R 1) (Reg.R 2) (Reg.R 3) (Reg.R 4)
         .SETLT).countP (fun i => i.isRegMove) ≤ 2 ∧
     ((Reg.R 3 = Reg.R 0 ∨ Reg.R 4 = Reg.R 0) →
       (expandSELECT_CC_PSEUDO (Reg.R 0) (Reg.R 1) (Reg.R 2) (Reg.R 3) (Reg.R 4)
           .SETLT).countP (fun i => i.isRegMove) ≤ 1)) :=
  ⟨by decide, sampleSelState_wf,
   select_cc_pseudo_aliasing .SETLT (Reg.R 0) (Reg.R 1) (Reg.R 2) (Reg.R 3) (Reg.R 4)
     sampleSelState (by decide) sampleSelState_wf⟩

/-- C9: for every 64-bit shift amount below 64, the parts-based lowering
of shift-left, logical shift-right and arithmetic shift-right produces
exactly the (low, high) words of the reference 64-bit shift — zeros fill
the left shift and the logical right shift, the sign bit fills the
arithmetic right shift. -/
theorem shift_parts_lowering_correct (lo hi s : Nat)
    (hlo : lo < 2 ^ 32) (hhi : hi < 2 ^ 32) (hs : s < 64) :
    lowerShiftLeftParts lo hi s = refShl64 lo hi s ∧
    lowerShiftRightParts lo hi s false = refLshr64 lo hi s ∧
    lowerShiftRightParts lo hi s true = refAshr64 lo hi s := by
  rcases lt_or_ge s 32 with h | h
  · exact ⟨lowerShl_ref_of_lt lo hi s hlo hhi h,
      lowerLshr_ref_of_lt lo hi s hlo hhi h,
      lowerAshr_ref_of_lt lo hi s hlo hhi h⟩
  · exact ⟨lowerShl_ref_of_ge lo hi s hlo hhi h hs,
      lowerLshr_ref_of_ge lo hi s hlo hhi h hs,
      lowerAshr_ref_of_ge lo hi s hlo hhi h hs⟩

/-- Witness for C9 at lo = 5, hi = 7, s = 3. -/
theorem shift_parts_lowering_correct_witness :
    (5 : Nat) < 2 ^ 32 ∧ (7 : Nat) < 2 ^ 32 ∧ (3 : Nat) < 64 ∧
    (lowerShiftLeftParts 5 7 3 = refShl64 5 7 3 ∧
     lowerShiftRightParts 5 7 3 false = refLshr64 5 7 3 ∧
     lowerShiftRightParts 5 7 3 true = refAshr64 5 7 3) :=
  ⟨by norm_num, by norm_num, by norm_num,
   shift_parts_lowering_correct 5 7 3 (by norm_num) (by norm_num) (by norm_num)⟩

end M65832
